import Mathlib

set_option maxRecDepth 8000

/-!
Verification of the single-file commit-graph index of `git-commitgraph`.

This file shallowly embeds the accessor layer of
`git-commitgraph/src/graph_file/access.rs` (together with the constant
`MAX_COMMITS` from `git-commitgraph/src/lib.rs`) and proves the documented
properties of `lookup`, `id_at`, `commit_data_bytes` and the iterators.

Modelling conventions:
* a byte buffer is a `List Nat` whose members are below 256;
* an `Id` (`git_object::borrowed::Id`, a 20-byte SHA-1) is a `List Nat` of
  length `SHA1_SIZE`, compared lexicographically exactly as Rust compares
  `&[u8]` slices (`cmpBytes`);
* machine `u32` arithmetic is `Nat` with an explicit `% 2 ^ 32` where
  overflow is possible (the bisection midpoint `lower_bound + upper_bound`);
* a Rust `panic!`/failed `assert!` is the `none` of an `Option` result
  (`LookupResult.panicked` inside the bisection loop);
* the bisection loop of `lookup` is embedded with explicit fuel
  `upper_bound - lower_bound`, the exact maximal number of iterations of any
  execution in which the midpoint addition does not wrap; an execution that
  would iterate longer (possible only when the `u32` addition wraps, which
  is proved impossible for capped files) is reported as
  `LookupResult.diverged`.
-/

/-- Size in bytes of a SHA-1 hash, `git_object::SHA1_SIZE`. -/
def SHA1_SIZE : Nat := 20

/-- Modelled from the spec: `COMMIT_DATA_ENTRY_SIZE` is declared in
`graph_file/mod.rs`, which is not among the visible sources; spec section 6
fixes a CDAT record at hash-size + 16 bytes. -/
def COMMIT_DATA_ENTRY_SIZE : Nat := SHA1_SIZE + 16

/-- Cap on representable commits, `git-commitgraph/src/lib.rs`:
`pub const MAX_COMMITS: u32 = (1 << 30) + (1 << 29) + (1 << 28) - 1;`. -/
def MAX_COMMITS : Nat := (1 <<< 30) + (1 <<< 29) + (1 <<< 28) - 1

/-- Modulus of 32-bit unsigned machine arithmetic. -/
def U32_MOD : Nat := 2 ^ 32

/-- Lexicographic comparison of byte slices, the `Ord` instance Rust uses for
`id.cmp(&mid_sha)` on `borrowed::Id` (which wraps `&[u8]`). -/
def cmpBytes : List Nat → List Nat → Ordering
  | [], [] => Ordering.eq
  | [], _ :: _ => Ordering.lt
  | _ :: _, [] => Ordering.gt
  | a :: l1, b :: l2 =>
    if a < b then Ordering.lt
    else if b < a then Ordering.gt
    else cmpBytes l1 l2

/-- First byte of an id, `borrowed::Id::first_byte`. -/
def firstByte (id : List Nat) : Nat := id.headD 0

/-- A well-formed 20-byte id: the value set of `borrowed::Id` for SHA-1. -/
def ValidId (id : List Nat) : Prop :=
  id.length = SHA1_SIZE ∧ ∀ b ∈ id, b < 256

/-- Exact chunking of a byte list, `slice::chunks_exact(n)`: the maximal
prefix of disjoint length-`n` chunks, any shorter remainder dropped. -/
def chunksExact (n : Nat) (l : List Nat) : List (List Nat) :=
  if h : 0 < n ∧ n ≤ l.length then
    l.take n :: chunksExact n (l.drop n)
  else []
termination_by l.length
decreasing_by simp only [List.length_drop]; omega

/-- Hash kinds of `git_object::HashKind`. -/
inductive HashKind where
  | Sha1
deriving DecidableEq

/-- Graph file format kinds (`graph_file::Kind`, declared in
`graph_file/mod.rs`; `access.rs` only ever produces `V1`). -/
inductive Kind where
  | V1
deriving DecidableEq

/-- Outcome of `GraphFile::lookup`. `found`/`notFound` are `Some`/`None` of
the Rust return value; `panicked` marks a failed assertion or slice bounds
check inside `id_at`; `diverged` marks an execution exceeding the fuel
bound `upper_bound - lower_bound` (only possible under `u32` wrap-around of
the midpoint addition). -/
inductive LookupResult where
  | found (pos : Nat)
  | notFound
  | panicked
  | diverged
deriving DecidableEq

/-- The fields of `graph_file::GraphFile` used by `access.rs`: the backing
buffer `data`, the decoded 256-entry fan-out table `fan` (entry `i`
retrieved as `fan i`), the byte offsets of the OIDL and CDAT chunks, the
optional EDGE chunk range, and the optional BASE chunk offset with its
entry count. The `path` field (used only by `path()` and `Debug`) is
omitted; no claim concerns it. -/
structure GraphFile where
  data : List Nat
  fan : Nat → Nat
  oid_lookup_offset : Nat
  commit_data_offset : Nat
  extra_edges_list_range : Option (Nat × Nat)
  base_graphs_list_offset : Option Nat
  base_graph_count : Nat

namespace GraphFile

/-- Number of commits in the file: `self.fan[255]`. -/
def num_commits (f : GraphFile) : Nat := f.fan 255

/-- Hash kind of the file; `access.rs` returns `HashKind::Sha1`
unconditionally. -/
def hash_kind (_f : GraphFile) : HashKind := HashKind.Sha1

/-- Format kind of the file; `access.rs` returns `Kind::V1`
unconditionally. -/
def kind (_f : GraphFile) : Kind := Kind.V1

/-- The raw 20-byte read performed by `id_at`:
`&self.data[start..start + SHA1_SIZE]` with
`start = self.oid_lookup_offset + pos * SHA1_SIZE`. -/
def idAtRaw (f : GraphFile) (pos : Nat) : List Nat :=
  (f.data.drop (f.oid_lookup_offset + pos * SHA1_SIZE)).take SHA1_SIZE

/-- `GraphFile::id_at`. Returns `none` exactly when the Rust code panics:
either the defensive assertion `pos < num_commits()` fails, or the slice
`data[start..start + SHA1_SIZE]` exceeds the buffer. -/
def id_at (f : GraphFile) (pos : Nat) : Option (List Nat) :=
  if pos < f.num_commits then
    if f.oid_lookup_offset + pos * SHA1_SIZE + SHA1_SIZE ≤ f.data.length then
      some (f.idAtRaw pos)
    else none
  else none

/-- The raw record read performed by `commit_data_bytes`. -/
def commitDataBytesRaw (f : GraphFile) (pos : Nat) : List Nat :=
  (f.data.drop (f.commit_data_offset + pos * COMMIT_DATA_ENTRY_SIZE)).take
    COMMIT_DATA_ENTRY_SIZE

/-- `GraphFile::commit_data_bytes`. Returns `none` exactly when the Rust
code panics: either the defensive assertion `pos < num_commits()` fails, or
the record slice exceeds the buffer. -/
def commit_data_bytes (f : GraphFile) (pos : Nat) : Option (List Nat) :=
  if pos < f.num_commits then
    if f.commit_data_offset + pos * COMMIT_DATA_ENTRY_SIZE +
        COMMIT_DATA_ENTRY_SIZE ≤ f.data.length then
      some (f.commitDataBytesRaw pos)
    else none
  else none

/-- Modelled from the spec: `CommitData::new` (the commit-record decoder in
`graph_file/commit_data.rs`) is not among the visible sources. Spec section
4.2 specifies `commit_at` as delegating the record decoder to the
`commit_data_offset + pos * record_size` slice, so the commit record is
modelled by the record slice it is decoded from; every claim here depends
only on which record is selected, never on the decoded fields. -/
def commit_at (f : GraphFile) (pos : Nat) : Option (List Nat) :=
  f.commit_data_bytes pos

/-- `GraphFile::iter_ids`: `(0..self.num_commits()).map(|i| self.id_at(LexPosition(i)))`. -/
def iter_ids (f : GraphFile) : List (Option (List Nat)) :=
  (List.range f.num_commits).map (fun i => f.id_at i)

/-- `GraphFile::iter_commits`: `(0..self.num_commits()).map(|i| self.commit_at(LexPosition(i)))`. -/
def iter_commits (f : GraphFile) : List (Option (List Nat)) :=
  (List.range f.num_commits).map (fun i => f.commit_at i)

/-- `GraphFile::iter_base_graph_ids`: the BASE chunk
(`data[v..v + SHA1_SIZE * base_graph_count]` when present, `&[]` when
absent) cut into exact 20-byte chunks; `Id::try_from` on a 20-byte chunk is
the identity. -/
def iter_base_graph_ids (f : GraphFile) : List (List Nat) :=
  let base_graphs_list :=
    match f.base_graphs_list_offset with
    | some v => (f.data.drop v).take (SHA1_SIZE * f.base_graph_count)
    | none => []
  chunksExact SHA1_SIZE base_graphs_list

/-- The bisection loop of `GraphFile::lookup`, with explicit fuel. The
midpoint is the `u32` expression `(lower_bound + upper_bound) / 2`, hence
the explicit `% U32_MOD`. -/
def lookupLoop (f : GraphFile) (id : List Nat) :
    Nat → Nat → Nat → LookupResult
  | 0, lower_bound, upper_bound =>
    if lower_bound < upper_bound then LookupResult.diverged
    else LookupResult.notFound
  | fuel + 1, lower_bound, upper_bound =>
    if lower_bound < upper_bound then
      let mid := (lower_bound + upper_bound) % U32_MOD / 2
      match f.id_at mid with
      | none => LookupResult.panicked
      | some mid_sha =>
        match cmpBytes id mid_sha with
        | Ordering.lt => lookupLoop f id fuel lower_bound mid
        | Ordering.eq => LookupResult.found mid
        | Ordering.gt => lookupLoop f id fuel (mid + 1) upper_bound
    else LookupResult.notFound

/-- `GraphFile::lookup`: initialize `upper_bound = fan[first_byte]` and
`lower_bound = if first_byte != 0 { fan[first_byte - 1] } else { 0 }`, then
bisect. Fuel is `upper_bound - lower_bound`, the exact iteration bound of
every wrap-free execution. -/
def lookup (f : GraphFile) (id : List Nat) : LookupResult :=
  let first_byte := firstByte id
  let upper_bound := f.fan first_byte
  let lower_bound := if first_byte ≠ 0 then f.fan (first_byte - 1) else 0
  lookupLoop f id (upper_bound - lower_bound) lower_bound upper_bound

/-- Number of id comparisons (`id.cmp(&mid_sha)`) executed by the bisection
loop, mirroring `lookupLoop` step for step. -/
def lookupLoopComparisons (f : GraphFile) (id : List Nat) :
    Nat → Nat → Nat → Nat
  | 0, _, _ => 0
  | fuel + 1, lower_bound, upper_bound =>
    if lower_bound < upper_bound then
      let mid := (lower_bound + upper_bound) % U32_MOD / 2
      match f.id_at mid with
      | none => 0
      | some mid_sha =>
        match cmpBytes id mid_sha with
        | Ordering.lt => 1 + lookupLoopComparisons f id fuel lower_bound mid
        | Ordering.eq => 1
        | Ordering.gt =>
          1 + lookupLoopComparisons f id fuel (mid + 1) upper_bound
    else 0

/-- Number of id comparisons executed by `lookup f id`. -/
def lookupComparisons (f : GraphFile) (id : List Nat) : Nat :=
  let first_byte := firstByte id
  let upper_bound := f.fan first_byte
  let lower_bound := if first_byte ≠ 0 then f.fan (first_byte - 1) else 0
  lookupLoopComparisons f id (upper_bound - lower_bound) lower_bound
    upper_bound

/-- Overflow instrumentation of the bisection loop: `true` exactly when some
executed iteration evaluates `lower_bound + upper_bound` outside `u32`
range. Mirrors `lookupLoop` step for step. -/
def lookupLoopOverflows (f : GraphFile) (id : List Nat) :
    Nat → Nat → Nat → Bool
  | 0, _, _ => false
  | fuel + 1, lower_bound, upper_bound =>
    if lower_bound < upper_bound then
      if U32_MOD ≤ lower_bound + upper_bound then true
      else
        let mid := (lower_bound + upper_bound) % U32_MOD / 2
        match f.id_at mid with
        | none => false
        | some mid_sha =>
          match cmpBytes id mid_sha with
          | Ordering.lt => lookupLoopOverflows f id fuel lower_bound mid
          | Ordering.eq => false
          | Ordering.gt =>
            lookupLoopOverflows f id fuel (mid + 1) upper_bound
    else false

/-- Whether `lookup f id` ever overflows the `u32` midpoint addition. -/
def lookupOverflows (f : GraphFile) (id : List Nat) : Bool :=
  let first_byte := firstByte id
  let upper_bound := f.fan first_byte
  let lower_bound := if first_byte ≠ 0 then f.fan (first_byte - 1) else 0
  lookupLoopOverflows f id (upper_bound - lower_bound) lower_bound
    upper_bound

/-- Lower edge of the fan-out bucket for leading byte `b`, exactly the
`lower_bound` initialization of `lookup`. -/
def bucketLo (f : GraphFile) (b : Nat) : Nat :=
  if b ≠ 0 then f.fan (b - 1) else 0

/-- Structural well-formedness of a graph file, the facts guaranteed for
every file the crate constructs (spec sections 3, 6, 8):
the fan-out table is non-decreasing with `u32` entries, the buffer holds the
full OIDL and CDAT chunks, bytes are bytes, and — modelled from the spec,
section 9, since construction/validation code is not among the visible
sources — the commit count respects the construction-time cap
`MAX_COMMITS`. -/
def WFBase (f : GraphFile) : Prop :=
  (∀ i, i < 255 → f.fan i ≤ f.fan (i + 1)) ∧
  (∀ i, i < 256 → f.fan i < U32_MOD) ∧
  f.num_commits ≤ MAX_COMMITS ∧
  (∀ b ∈ f.data, b < 256) ∧
  f.oid_lookup_offset + f.num_commits * SHA1_SIZE ≤ f.data.length ∧
  f.commit_data_offset + f.num_commits * COMMIT_DATA_ENTRY_SIZE ≤
    f.data.length

/-- Full file invariants (spec sections 3 and 8): `WFBase` plus the sorted
id-lookup table (strictly increasing ids) and fan-out bucket containment
(each id's position lies in the bucket of its leading byte). -/
def WF (f : GraphFile) : Prop :=
  f.WFBase ∧
  (∀ q, q < f.num_commits → ∀ p, p < q →
    cmpBytes (f.idAtRaw p) (f.idAtRaw q) = Ordering.lt) ∧
  (∀ p, p < f.num_commits →
    f.bucketLo (firstByte (f.idAtRaw p)) ≤ p ∧
    p < f.fan (firstByte (f.idAtRaw p)))

end GraphFile

instance (id : List Nat) : Decidable (ValidId id) := by
  unfold ValidId; infer_instance

instance (f : GraphFile) : Decidable f.WFBase := by
  unfold GraphFile.WFBase; infer_instance

instance (f : GraphFile) : Decidable f.WF := by
  unfold GraphFile.WF; infer_instance

/-- Concrete one-commit graph file used to witness the theorems: a 20-byte
all-zero id at offset 0 and one 36-byte commit record at offset 20. -/
def exFile : GraphFile :=
  { data := List.replicate 56 0
    fan := fun _ => 1
    oid_lookup_offset := 0
    commit_data_offset := 20
    extra_edges_list_range := none
    base_graphs_list_offset := none
    base_graph_count := 0 }

/-- A second spelling of `exFile` with definitionally equal fields, used to
witness the two-run determinism theorem. -/
def exFile2 : GraphFile :=
  { data := List.replicate 56 0
    fan := fun _ => 1
    oid_lookup_offset := 0
    commit_data_offset := 20
    extra_edges_list_range := none
    base_graphs_list_offset := none
    base_graph_count := 0 }

/-- Concrete graph file with an empty id table and one BASE-chunk entry of
20 copies of byte 7, used to witness the base-graph-iterator theorem. -/
def exFileB : GraphFile :=
  { data := List.replicate 20 7
    fan := fun _ => 0
    oid_lookup_offset := 0
    commit_data_offset := 0
    extra_edges_list_range := none
    base_graphs_list_offset := some 0
    base_graph_count := 1 }

/-- Concrete id absent from `exFile` (its single stored id is all zeros). -/
def absentId : List Nat := List.replicate 19 0 ++ [1]

lemma cmpBytes_self (l : List Nat) : cmpBytes l l = Ordering.eq := by
  induction l with
  | nil => rfl
  | cons a t ih => simp [cmpBytes, ih]

lemma cmpBytes_eq_iff (a b : List Nat) : cmpBytes a b = Ordering.eq ↔ a = b := by
  induction a generalizing b with
  | nil => cases b <;> simp [cmpBytes]
  | cons x t ih =>
    cases b with
    | nil => simp [cmpBytes]
    | cons y s =>
      rcases Nat.lt_trichotomy x y with h | h | h
      · have hx : x ≠ y := Nat.ne_of_lt h
        simp [cmpBytes, h, hx]
      · subst h
        simp [cmpBytes, ih]
      · have hx : x ≠ y := (Nat.ne_of_lt h).symm
        have h1 : ¬ x < y := by omega
        simp [cmpBytes, h, h1, hx]

lemma cmpBytes_gt_iff (a b : List Nat) :
    cmpBytes a b = Ordering.gt ↔ cmpBytes b a = Ordering.lt := by
  induction a generalizing b with
  | nil => cases b <;> simp [cmpBytes]
  | cons x t ih =>
    cases b with
    | nil => simp [cmpBytes]
    | cons y s =>
      rcases Nat.lt_trichotomy x y with h | h | h
      · have h2 : ¬ y < x := by omega
        simp [cmpBytes, h, h2]
      · subst h
        simp [cmpBytes, ih]
      · have h2 : ¬ x < y := by omega
        simp [cmpBytes, h, h2]

lemma fan_mono {f : GraphFile} (hf : ∀ i, i < 255 → f.fan i ≤ f.fan (i + 1)) :
    ∀ {i j : Nat}, i ≤ j → j ≤ 255 → f.fan i ≤ f.fan j := by
  intro i j hij hj
  induction j with
  | zero =>
    have h0 : i = 0 := Nat.le_zero.mp hij
    simp [h0]
  | succ k ih =>
    rcases Nat.eq_or_lt_of_le hij with h | h
    · rw [h]
    · exact le_trans (ih (Nat.lt_succ_iff.mp h) (by omega)) (hf k (by omega))

lemma id_at_eq_some {f : GraphFile} (hb : f.WFBase) {pos : Nat}
    (hpos : pos < f.num_commits) : f.id_at pos = some (f.idAtRaw pos) := by
  obtain ⟨-, -, -, -, hoid, -⟩ := hb
  have h1 : pos + 1 ≤ f.num_commits := hpos
  have hle : f.oid_lookup_offset + pos * SHA1_SIZE + SHA1_SIZE ≤
      f.data.length := by
    simp only [SHA1_SIZE] at *
    omega
  simp [GraphFile.id_at, hpos, hle]

lemma commit_data_bytes_eq_some {f : GraphFile} (hb : f.WFBase) {pos : Nat}
    (hpos : pos < f.num_commits) :
    f.commit_data_bytes pos = some (f.commitDataBytesRaw pos) := by
  obtain ⟨-, -, -, -, -, hcd⟩ := hb
  have h1 : pos + 1 ≤ f.num_commits := hpos
  have hle : f.commit_data_offset + pos * COMMIT_DATA_ENTRY_SIZE +
      COMMIT_DATA_ENTRY_SIZE ≤ f.data.length := by
    simp only [COMMIT_DATA_ENTRY_SIZE, SHA1_SIZE] at *
    omega
  simp [GraphFile.commit_data_bytes, hpos, hle]

lemma idAtRaw_length {f : GraphFile} (hb : f.WFBase) {pos : Nat}
    (hpos : pos < f.num_commits) : (f.idAtRaw pos).length = SHA1_SIZE := by
  obtain ⟨-, -, -, -, hoid, -⟩ := hb
  have h1 : pos + 1 ≤ f.num_commits := hpos
  simp only [GraphFile.idAtRaw, List.length_take, List.length_drop]
  simp only [SHA1_SIZE] at *
  omega

lemma idAtRaw_valid {f : GraphFile} (hb : f.WFBase) {pos : Nat}
    (hpos : pos < f.num_commits) : ValidId (f.idAtRaw pos) := by
  refine ⟨idAtRaw_length hb hpos, ?_⟩
  intro b hbmem
  have h2 : b ∈ f.data.drop (f.oid_lookup_offset + pos * SHA1_SIZE) :=
    List.take_subset _ _ hbmem
  exact hb.2.2.2.1 b (List.drop_subset _ _ h2)

lemma firstByte_lt {id : List Nat} (hid : ValidId id) : firstByte id < 256 := by
  obtain ⟨hlen, hmem⟩ := hid
  cases id with
  | nil => simp [SHA1_SIZE] at hlen
  | cons a t =>
    have : a < 256 := hmem a (List.mem_cons_self a t)
    simpa [firstByte] using this

lemma mid_bounds {lower upper : Nat} (h : lower < upper)
    (hu : upper ≤ MAX_COMMITS) :
    (lower + upper) % U32_MOD = lower + upper ∧
    lower ≤ (lower + upper) / 2 ∧ (lower + upper) / 2 < upper := by
  have h1 : MAX_COMMITS = 1879048191 := by decide
  rw [show U32_MOD = 4294967296 from by decide]
  omega

lemma upper_le_nc {f : GraphFile}
    (hf : ∀ i, i < 255 → f.fan i ≤ f.fan (i + 1)) {id : List Nat}
    (hid : ValidId id) : f.fan (firstByte id) ≤ f.num_commits := by
  have hfb : firstByte id < 256 := firstByte_lt hid
  exact fan_mono hf (i := firstByte id) (j := 255) (by omega) (le_refl 255)

lemma bucketLo_le_fan {f : GraphFile}
    (hf : ∀ i, i < 255 → f.fan i ≤ f.fan (i + 1)) {b : Nat} (hb : b < 256) :
    f.bucketLo b ≤ f.fan b := by
  unfold GraphFile.bucketLo
  split
  · exact fan_mono hf (by omega) (by omega)
  · exact Nat.zero_le _

lemma lookup_eq_loop (f : GraphFile) (id : List Nat) :
    f.lookup id =
      GraphFile.lookupLoop f id
        (f.fan (firstByte id) - f.bucketLo (firstByte id))
        (f.bucketLo (firstByte id)) (f.fan (firstByte id)) := rfl

lemma lookupComparisons_eq_loop (f : GraphFile) (id : List Nat) :
    f.lookupComparisons id =
      GraphFile.lookupLoopComparisons f id
        (f.fan (firstByte id) - f.bucketLo (firstByte id))
        (f.bucketLo (firstByte id)) (f.fan (firstByte id)) := rfl

lemma lookupOverflows_eq_loop (f : GraphFile) (id : List Nat) :
    f.lookupOverflows id =
      GraphFile.lookupLoopOverflows f id
        (f.fan (firstByte id) - f.bucketLo (firstByte id))
        (f.bucketLo (firstByte id)) (f.fan (firstByte id)) := rfl

lemma lookupLoop_found {f : GraphFile} (hw : f.WF) :
    ∀ (fuel lower upper p : Nat), lower ≤ p → p < upper →
      upper ≤ f.num_commits → upper - lower ≤ fuel →
      GraphFile.lookupLoop f (f.idAtRaw p) fuel lower upper =
        LookupResult.found p := by
  obtain ⟨hb, hsort, -⟩ := hw
  intro fuel
  induction fuel with
  | zero =>
    intro lower upper p h1 h2 h3 h4
    omega
  | succ fuel ih =>
    intro lower upper p h1 h2 h3 h4
    have hlt : lower < upper := lt_of_le_of_lt h1 h2
    have hcap : upper ≤ MAX_COMMITS := le_trans h3 hb.2.2.1
    obtain ⟨hmod, hmlo, hmhi⟩ := mid_bounds hlt hcap
    have hmnc : (lower + upper) / 2 < f.num_commits := lt_of_lt_of_le hmhi h3
    simp only [GraphFile.lookupLoop]
    rw [if_pos hlt, hmod]
    simp only [id_at_eq_some hb hmnc]
    rcases Nat.lt_trichotomy p ((lower + upper) / 2) with hpm | hpm | hpm
    · have hcmp : cmpBytes (f.idAtRaw p) (f.idAtRaw ((lower + upper) / 2)) =
          Ordering.lt := hsort _ hmnc _ hpm
      rw [hcmp]
      exact ih lower _ p h1 hpm (le_trans (le_of_lt hmhi) h3) (by omega)
    · rw [← hpm, cmpBytes_self]
    · have hlt2 : cmpBytes (f.idAtRaw ((lower + upper) / 2)) (f.idAtRaw p) =
          Ordering.lt := hsort p (lt_of_lt_of_le h2 h3) _ hpm
      have hgt : cmpBytes (f.idAtRaw p) (f.idAtRaw ((lower + upper) / 2)) =
          Ordering.gt := (cmpBytes_gt_iff _ _).mpr hlt2
      rw [hgt]
      exact ih _ upper p (by omega) h2 h3 (by omega)

lemma lookupLoop_sound {f : GraphFile} (hb : f.WFBase) {id : List Nat} :
    ∀ (fuel lower upper q : Nat), upper ≤ f.num_commits →
      GraphFile.lookupLoop f id fuel lower upper = LookupResult.found q →
      lower ≤ q ∧ q < upper ∧ f.idAtRaw q = id := by
  intro fuel
  induction fuel with
  | zero =>
    intro lower upper q h3 heq
    simp only [GraphFile.lookupLoop] at heq
    split at heq <;> simp at heq
  | succ fuel ih =>
    intro lower upper q h3 heq
    simp only [GraphFile.lookupLoop] at heq
    by_cases hlt : lower < upper
    · rw [if_pos hlt] at heq
      have hcap : upper ≤ MAX_COMMITS := le_trans h3 hb.2.2.1
      obtain ⟨hmod, hmlo, hmhi⟩ := mid_bounds hlt hcap
      rw [hmod] at heq
      have hmnc : (lower + upper) / 2 < f.num_commits := lt_of_lt_of_le hmhi h3
      simp only [id_at_eq_some hb hmnc] at heq
      cases hc : cmpBytes id (f.idAtRaw ((lower + upper) / 2)) with
      | lt =>
        rw [hc] at heq
        obtain ⟨ha, hb2, hc2⟩ := ih lower _ q (le_trans (le_of_lt hmhi) h3) heq
        exact ⟨ha, lt_trans hb2 hmhi, hc2⟩
      | eq =>
        rw [hc] at heq
        have h5 : LookupResult.found ((lower + upper) / 2) =
            LookupResult.found q := heq
        cases h5
        exact ⟨hmlo, hmhi, ((cmpBytes_eq_iff _ _).mp hc).symm⟩
      | gt =>
        rw [hc] at heq
        obtain ⟨ha, hb2, hc2⟩ := ih _ upper q h3 heq
        exact ⟨by omega, hb2, hc2⟩
    · rw [if_neg hlt] at heq
      simp at heq

lemma lookupLoop_notFound {f : GraphFile} (hb : f.WFBase) {id : List Nat} :
    ∀ (fuel lower upper : Nat), upper ≤ f.num_commits →
      upper - lower ≤ fuel →
      (∀ p, lower ≤ p → p < upper → f.idAtRaw p ≠ id) →
      GraphFile.lookupLoop f id fuel lower upper = LookupResult.notFound := by
  intro fuel
  induction fuel with
  | zero =>
    intro lower upper h3 h4 habs
    simp only [GraphFile.lookupLoop]
    rw [if_neg (by omega)]
  | succ fuel ih =>
    intro lower upper h3 h4 habs
    by_cases hlt : lower < upper
    · have hcap : upper ≤ MAX_COMMITS := le_trans h3 hb.2.2.1
      obtain ⟨hmod, hmlo, hmhi⟩ := mid_bounds hlt hcap
      have hmnc : (lower + upper) / 2 < f.num_commits := lt_of_lt_of_le hmhi h3
      simp only [GraphFile.lookupLoop]
      rw [if_pos hlt, hmod]
      simp only [id_at_eq_some hb hmnc]
      cases hc : cmpBytes id (f.idAtRaw ((lower + upper) / 2)) with
      | lt =>
        exact ih lower _ (le_trans (le_of_lt hmhi) h3) (by omega)
          (fun p hp1 hp2 => habs p hp1 (lt_trans hp2 hmhi))
      | eq =>
        exact absurd ((cmpBytes_eq_iff _ _).mp hc).symm (habs _ hmlo hmhi)
      | gt =>
        exact ih _ upper h3 (by omega)
          (fun p hp1 hp2 => habs p (by omega) hp2)
    · simp only [GraphFile.lookupLoop]
      rw [if_neg hlt]

lemma lookupLoop_ne_diverged {f : GraphFile} (hb : f.WFBase) {id : List Nat} :
    ∀ (fuel lower upper : Nat), upper ≤ f.num_commits →
      upper - lower ≤ fuel →
      GraphFile.lookupLoop f id fuel lower upper ≠ LookupResult.diverged := by
  intro fuel
  induction fuel with
  | zero =>
    intro lower upper h3 h4
    simp only [GraphFile.lookupLoop]
    rw [if_neg (by omega)]
    simp
  | succ fuel ih =>
    intro lower upper h3 h4
    by_cases hlt : lower < upper
    · have hcap : upper ≤ MAX_COMMITS := le_trans h3 hb.2.2.1
      obtain ⟨hmod, hmlo, hmhi⟩ := mid_bounds hlt hcap
      have hmnc : (lower + upper) / 2 < f.num_commits := lt_of_lt_of_le hmhi h3
      simp only [GraphFile.lookupLoop]
      rw [if_pos hlt, hmod]
      simp only [id_at_eq_some hb hmnc]
      cases hc : cmpBytes id (f.idAtRaw ((lower + upper) / 2)) with
      | lt =>
        exact ih lower _ (le_trans (le_of_lt hmhi) h3) (by omega)
      | eq =>
        simp
      | gt =>
        exact ih _ upper h3 (by omega)
    · simp only [GraphFile.lookupLoop]
      rw [if_neg hlt]
      simp

lemma lookupLoopComparisons_empty {f : GraphFile} {id : List Nat}
    (fuel lower upper : Nat) (h : ¬ lower < upper) :
    GraphFile.lookupLoopComparisons f id fuel lower upper = 0 := by
  cases fuel with
  | zero => rfl
  | succ fuel =>
    simp only [GraphFile.lookupLoopComparisons]
    rw [if_neg h]

lemma lookupLoopComparisons_le {f : GraphFile} (hb : f.WFBase)
    {id : List Nat} :
    ∀ (fuel lower upper : Nat), upper ≤ f.num_commits →
      upper - lower ≤ fuel →
      GraphFile.lookupLoopComparisons f id fuel lower upper ≤
        Nat.log 2 (upper - lower) + 1 := by
  intro fuel
  induction fuel with
  | zero =>
    intro lower upper h3 h4
    simp [GraphFile.lookupLoopComparisons]
  | succ fuel ih =>
    intro lower upper h3 h4
    by_cases hlt : lower < upper
    · have hcap : upper ≤ MAX_COMMITS := le_trans h3 hb.2.2.1
      obtain ⟨hmod, hmlo, hmhi⟩ := mid_bounds hlt hcap
      have hmnc : (lower + upper) / 2 < f.num_commits := lt_of_lt_of_le hmhi h3
      simp only [GraphFile.lookupLoopComparisons]
      rw [if_pos hlt, hmod]
      simp only [id_at_eq_some hb hmnc]
      split
      · by_cases hempty : lower < (lower + upper) / 2
        · have hsub := ih lower ((lower + upper) / 2)
            (le_trans (le_of_lt hmhi) h3) (by omega)
          have hd2 : (lower + upper) / 2 - lower ≤ (upper - lower) / 2 := by
            omega
          have hd : 2 ≤ upper - lower := by omega
          have hlog : Nat.log 2 ((lower + upper) / 2 - lower) + 1 ≤
              Nat.log 2 (upper - lower) := by
            have m1 := Nat.log_mono_right (b := 2) hd2
            have m2 := Nat.log_div_base 2 (upper - lower)
            have m3 : 0 < Nat.log 2 (upper - lower) :=
              Nat.log_pos (by norm_num) hd
            omega
          omega
        · rw [lookupLoopComparisons_empty fuel lower _ hempty]
          omega
      · omega
      · by_cases hempty : (lower + upper) / 2 + 1 < upper
        · have hsub := ih ((lower + upper) / 2 + 1) upper h3 (by omega)
          have hd2 : upper - ((lower + upper) / 2 + 1) ≤ (upper - lower) / 2 := by
            omega
          have hd : 2 ≤ upper - lower := by omega
          have hlog : Nat.log 2 (upper - ((lower + upper) / 2 + 1)) + 1 ≤
              Nat.log 2 (upper - lower) := by
            have m1 := Nat.log_mono_right (b := 2) hd2
            have m2 := Nat.log_div_base 2 (upper - lower)
            have m3 : 0 < Nat.log 2 (upper - lower) :=
              Nat.log_pos (by norm_num) hd
            omega
          omega
        · rw [lookupLoopComparisons_empty fuel _ upper hempty]
          omega
    · rw [lookupLoopComparisons_empty _ _ _ hlt]
      omega

lemma lookupLoopOverflows_false {f : GraphFile} {id : List Nat} :
    ∀ (fuel lower upper : Nat), lower ≤ upper → upper ≤ MAX_COMMITS →
      GraphFile.lookupLoopOverflows f id fuel lower upper = false := by
  intro fuel
  induction fuel with
  | zero => intro lower upper h1 h2; rfl
  | succ fuel ih =>
    intro lower upper h1 h2
    by_cases hlt : lower < upper
    · obtain ⟨hmod, hmlo, hmhi⟩ := mid_bounds hlt h2
      have hsum : ¬ U32_MOD ≤ lower + upper := by
        have hm : MAX_COMMITS = 1879048191 := by decide
        rw [show U32_MOD = 4294967296 from by decide]
        omega
      simp only [GraphFile.lookupLoopOverflows]
      rw [if_pos hlt, if_neg hsum, hmod]
      split
      · rfl
      · split
        · exact ih lower _ hmlo (by omega)
        · rfl
        · exact ih _ upper (by omega) h2
    · simp only [GraphFile.lookupLoopOverflows]
      rw [if_neg hlt]

lemma getD_map_range {α : Type} (g : Nat → α) (n i : Nat) (d : α)
    (h : i < n) : (((List.range n).map g).getD i d) = g i := by
  rw [List.getD_eq_getElem?_getD, List.getElem?_map, List.getElem?_range h]
  rfl

lemma chunksExact_nil (n : Nat) : chunksExact n [] = [] := by
  rw [chunksExact]
  simp
  omega

lemma chunksExact_length (n : Nat) (hn : 0 < n) :
    ∀ l : List Nat, (chunksExact n l).length = l.length / n
  | l => by
    by_cases hc : 0 < n ∧ n ≤ l.length
    · rw [chunksExact, dif_pos hc]
      have ih := chunksExact_length n hn (l.drop n)
      simp only [List.length_cons, ih, List.length_drop]
      rw [Nat.div_eq_sub_div hn hc.2]
    · rw [chunksExact, dif_neg hc]
      have hlen : l.length < n := by
        by_contra hcon
        exact hc ⟨hn, by omega⟩
      simp [Nat.div_eq_of_lt hlen]
termination_by l => l.length
decreasing_by
  show (List.drop n l).length < l.length
  simp only [List.length_drop]
  omega

lemma chunksExact_getD (n : Nat) (hn : 0 < n) :
    ∀ (l : List Nat) (i : Nat), i < l.length / n →
      (chunksExact n l).getD i [] = (l.drop (n * i)).take n
  | l, i => by
    intro hi
    by_cases hc : 0 < n ∧ n ≤ l.length
    · rw [chunksExact, dif_pos hc]
      cases i with
      | zero => simp
      | succ k =>
        have hk : k < (l.drop n).length / n := by
          simp only [List.length_drop]
          rw [Nat.div_eq_sub_div hn hc.2] at hi
          omega
        have ih := chunksExact_getD n hn (l.drop n) k hk
        rw [List.getD_cons_succ, ih, List.drop_drop, Nat.mul_succ,
          Nat.add_comm n (n * k)]
    · rw [chunksExact, dif_neg hc]
      have hlen : l.length < n := by
        by_contra hcon
        exact hc ⟨hn, by omega⟩
      rw [Nat.div_eq_of_lt hlen] at hi
      omega
termination_by l i => l.length
decreasing_by
  show (List.drop n l).length < l.length
  simp only [List.length_drop]
  omega

/-- Claim C1: for every graph file satisfying the file invariants and every
LexPosition `p < num_commits()`, `lookup(id_at(p)) = Some(p)`; conversely,
whenever `lookup` over a stored id reports a position, reading that position
back yields the same id (`id_at(lookup(id)) = id` for every id present). -/
theorem lookup_id_at_roundtrip (f : GraphFile) (hw : f.WF) :
    (∀ p, p < f.num_commits →
      f.lookup (f.idAtRaw p) = LookupResult.found p) ∧
    (∀ p q, p < f.num_commits →
      f.lookup (f.idAtRaw p) = LookupResult.found q →
      f.idAtRaw q = f.idAtRaw p) := by
  have main : ∀ p, p < f.num_commits →
      f.lookup (f.idAtRaw p) = LookupResult.found p := by
    intro p hp
    obtain ⟨hb, hsort, hbucket⟩ := hw
    obtain ⟨hlo, hhi⟩ := hbucket p hp
    have hvalid : ValidId (f.idAtRaw p) := idAtRaw_valid hb hp
    have hup : f.fan (firstByte (f.idAtRaw p)) ≤ f.num_commits :=
      upper_le_nc hb.1 hvalid
    rw [lookup_eq_loop]
    exact lookupLoop_found ⟨hb, hsort, hbucket⟩ _ _ _ p hlo hhi hup (le_refl _)
  refine ⟨main, ?_⟩
  intro p q hp heq
  rw [main p hp] at heq
  cases heq
  rfl

/-- Witness for C1 at the concrete one-commit file. -/
theorem lookup_id_at_roundtrip_witness :
    exFile.WF ∧ exFile.lookup (exFile.idAtRaw 0) = LookupResult.found 0 :=
  ⟨by decide, (lookup_id_at_roundtrip exFile (by decide)).1 0 (by decide)⟩

/-- Claim C2: `lookup` is bisection restricted to the fan-out bucket of the
leading byte — it starts from `lower_bound = fan[byte-1]` (0 for byte 0) and
`upper_bound = fan[byte]` (first conjunct, definitional), and it returns
exactly the matching position when the id is stored, `None` when the bucket
is exhausted without a match (second and third conjuncts). -/
theorem lookup_bisection_exact (f : GraphFile) (id : List Nat) (hw : f.WF)
    (hid : ValidId id) :
    f.lookup id =
      GraphFile.lookupLoop f id
        (f.fan (firstByte id) - f.bucketLo (firstByte id))
        (f.bucketLo (firstByte id)) (f.fan (firstByte id)) ∧
    (∀ q, f.lookup id = LookupResult.found q ↔
      q < f.num_commits ∧ f.idAtRaw q = id) ∧
    ((∀ p, p < f.num_commits → f.idAtRaw p ≠ id) →
      f.lookup id = LookupResult.notFound) := by
  obtain ⟨hb, hsort, hbucket⟩ := hw
  have hup : f.fan (firstByte id) ≤ f.num_commits := upper_le_nc hb.1 hid
  refine ⟨rfl, ?_, ?_⟩
  · intro q
    constructor
    · intro h
      rw [lookup_eq_loop] at h
      obtain ⟨h1, h2, h3⟩ := lookupLoop_sound hb _ _ _ q hup h
      exact ⟨lt_of_lt_of_le h2 hup, h3⟩
    · rintro ⟨hq, hqid⟩
      subst hqid
      obtain ⟨hlo, hhi⟩ := hbucket q hq
      rw [lookup_eq_loop]
      exact lookupLoop_found ⟨hb, hsort, hbucket⟩ _ _ _ q hlo hhi
        (upper_le_nc hb.1 (idAtRaw_valid hb hq)) (le_refl _)
  · intro habs
    rw [lookup_eq_loop]
    exact lookupLoop_notFound hb _ _ _ hup (le_refl _)
      (fun p h1 h2 => habs p (lt_of_lt_of_le h2 hup))

/-- Witness for C2 at the concrete one-commit file. -/
theorem lookup_bisection_exact_witness :
    exFile.WF ∧ ValidId (exFile.idAtRaw 0) ∧
    (exFile.lookup (exFile.idAtRaw 0) = LookupResult.found 0 ↔
      0 < exFile.num_commits ∧ exFile.idAtRaw 0 = exFile.idAtRaw 0) :=
  ⟨by decide, by decide,
    (lookup_bisection_exact exFile (exFile.idAtRaw 0)
      (by decide) (by decide)).2.1 0⟩

/-- Claim C3: an id absent from a well-formed file yields `None` with no
out-of-bounds access — the result is `notFound`, never `panicked` (the
`id_at` assertion cannot fire) and never `diverged`; empty buckets
(`fan[byte-1] = fan[byte]`) are covered since the loop then exits at once. -/
theorem lookup_absent_safe (f : GraphFile) (id : List Nat) (hb : f.WFBase)
    (hid : ValidId id)
    (habs : ∀ p, p < f.num_commits → f.idAtRaw p ≠ id) :
    f.lookup id = LookupResult.notFound := by
  have hup : f.fan (firstByte id) ≤ f.num_commits := upper_le_nc hb.1 hid
  rw [lookup_eq_loop]
  exact lookupLoop_notFound hb _ _ _ hup (le_refl _)
    (fun p h1 h2 => habs p (lt_of_lt_of_le h2 hup))

/-- Witness for C3: a 20-byte id differing from the single stored id. -/
theorem lookup_absent_safe_witness :
    exFile.WFBase ∧ ValidId absentId ∧
    exFile.lookup absentId = LookupResult.notFound :=
  ⟨by decide, by decide,
    lookup_absent_safe exFile absentId (by decide) (by decide) (by decide)⟩

/-- Claim C4: `id_at` and `commit_data_bytes` succeed (the defensive
assertion passes, no panic) for every `pos < num_commits()` of a structurally
well-formed file, and panic (contract violation, modelled as `none`) for
every `pos ≥ num_commits()`. -/
theorem id_at_commit_data_contract (f : GraphFile) (pos : Nat)
    (hb : f.WFBase) :
    (pos < f.num_commits →
      (f.id_at pos).isSome ∧ (f.commit_data_bytes pos).isSome) ∧
    (f.num_commits ≤ pos →
      f.id_at pos = none ∧ f.commit_data_bytes pos = none) := by
  constructor
  · intro hpos
    rw [id_at_eq_some hb hpos, commit_data_bytes_eq_some hb hpos]
    exact ⟨rfl, rfl⟩
  · intro hpos
    have h1 : ¬ pos < f.num_commits := by omega
    constructor
    · simp [GraphFile.id_at, h1]
    · simp [GraphFile.commit_data_bytes, h1]

/-- Witness for C4 at positions 0 (valid) and 5 (out of bounds). -/
theorem id_at_commit_data_contract_witness :
    ((0 < exFile.num_commits →
        (exFile.id_at 0).isSome ∧ (exFile.commit_data_bytes 0).isSome) ∧
      (exFile.num_commits ≤ 0 →
        exFile.id_at 0 = none ∧ exFile.commit_data_bytes 0 = none)) ∧
    ((5 < exFile.num_commits →
        (exFile.id_at 5).isSome ∧ (exFile.commit_data_bytes 5).isSome) ∧
      (exFile.num_commits ≤ 5 →
        exFile.id_at 5 = none ∧ exFile.commit_data_bytes 5 = none)) :=
  ⟨id_at_commit_data_contract exFile 0 (by decide),
    id_at_commit_data_contract exFile 5 (by decide)⟩

/-- Claim C5: with a non-decreasing fan-out table and
`num_commits() ≤ MAX_COMMITS`, the `u32` addition
`lower_bound + upper_bound` in the midpoint computation of `lookup` never
leaves 32-bit range at any executed iteration. -/
theorem lookup_midpoint_no_overflow (f : GraphFile) (id : List Nat)
    (hfan : ∀ i, i < 255 → f.fan i ≤ f.fan (i + 1))
    (hcap : f.num_commits ≤ MAX_COMMITS) (hid : ValidId id) :
    f.lookupOverflows id = false := by
  have hfb : firstByte id < 256 := firstByte_lt hid
  have hlo : f.bucketLo (firstByte id) ≤ f.fan (firstByte id) :=
    bucketLo_le_fan hfan hfb
  have hup : f.fan (firstByte id) ≤ f.num_commits := upper_le_nc hfan hid
  rw [lookupOverflows_eq_loop]
  exact lookupLoopOverflows_false _ _ _ hlo (le_trans hup hcap)

/-- Witness for C5 at the concrete one-commit file. -/
theorem lookup_midpoint_no_overflow_witness :
    exFile.num_commits ≤ MAX_COMMITS ∧
    exFile.lookupOverflows absentId = false :=
  ⟨by decide, lookup_midpoint_no_overflow exFile absentId
    (by decide) (by decide) (by decide)⟩

/-- Claim C6: on every well-formed file, `lookup` terminates (never exceeds
its `upper_bound - lower_bound` iteration budget) and performs at most
`log2(bucket_size) + 1` id comparisons, where `bucket_size` is the fan-out
bucket width for the queried id's leading byte. -/
theorem lookup_terminates_log_comparisons (f : GraphFile) (id : List Nat)
    (hb : f.WFBase) (hid : ValidId id) :
    f.lookup id ≠ LookupResult.diverged ∧
    f.lookupComparisons id ≤
      Nat.log 2 (f.fan (firstByte id) - f.bucketLo (firstByte id)) + 1 := by
  have hup : f.fan (firstByte id) ≤ f.num_commits := upper_le_nc hb.1 hid
  constructor
  · rw [lookup_eq_loop]
    exact lookupLoop_ne_diverged hb _ _ _ hup (le_refl _)
  · rw [lookupComparisons_eq_loop]
    exact lookupLoopComparisons_le hb _ _ _ hup (le_refl _)

/-- Witness for C6 at the concrete one-commit file. -/
theorem lookup_terminates_log_comparisons_witness :
    exFile.WFBase ∧ ValidId absentId ∧
    (exFile.lookup absentId ≠ LookupResult.diverged ∧
      exFile.lookupComparisons absentId ≤
        Nat.log 2 (exFile.fan (firstByte absentId) -
          exFile.bucketLo (firstByte absentId)) + 1) :=
  ⟨by decide, by decide,
    lookup_terminates_log_comparisons exFile absentId (by decide) (by decide)⟩

/-- Claim C7: every accessor is a pure function of the backing buffer and
the decoded chunk fields — two graph-file handles agreeing on all fields
give identical results for every accessor at every argument, so equal calls
on one immutable file always return equal results and no call changes any
observable state. -/
theorem accessors_pure_deterministic (f g : GraphFile)
    (h1 : f.data = g.data) (h2 : f.fan = g.fan)
    (h3 : f.oid_lookup_offset = g.oid_lookup_offset)
    (h4 : f.commit_data_offset = g.commit_data_offset)
    (h5 : f.extra_edges_list_range = g.extra_edges_list_range)
    (h6 : f.base_graphs_list_offset = g.base_graphs_list_offset)
    (h7 : f.base_graph_count = g.base_graph_count) :
    (∀ id, f.lookup id = g.lookup id) ∧
    (∀ pos, f.id_at pos = g.id_at pos) ∧
    (∀ pos, f.commit_at pos = g.commit_at pos) ∧
    f.num_commits = g.num_commits ∧
    f.hash_kind = g.hash_kind ∧ f.kind = g.kind ∧
    f.iter_ids = g.iter_ids ∧ f.iter_commits = g.iter_commits ∧
    f.iter_base_graph_ids = g.iter_base_graph_ids := by
  obtain ⟨d, fn, o, c, e, bo, bc⟩ := f
  obtain ⟨d', fn', o', c', e', bo', bc'⟩ := g
  cases h1
  cases h2
  cases h3
  cases h4
  cases h5
  cases h6
  cases h7
  exact ⟨fun _ => rfl, fun _ => rfl, fun _ => rfl, rfl, rfl, rfl, rfl, rfl,
    rfl⟩

/-- Witness for C7: two separately constructed handles over equal fields. -/
theorem accessors_pure_deterministic_witness :
    exFile.data = exFile2.data ∧ exFile.num_commits = exFile2.num_commits :=
  ⟨rfl, (accessors_pure_deterministic exFile exFile2 rfl rfl rfl rfl rfl rfl
    rfl).2.2.2.1⟩

/-- Claim C8: `iter_ids()` and `iter_commits()` are finite restartable
sequences of exactly `num_commits()` elements, elementwise equal to
`id_at`/`commit_at` applied to LexPositions `0, 1, …` in ascending order;
under the sorted-table invariant `iter_ids` yields strictly ascending ids. -/
theorem iter_sequences_spec (f : GraphFile) (hw : f.WF) :
    f.iter_ids.length = f.num_commits ∧
    f.iter_commits.length = f.num_commits ∧
    (∀ i, i < f.num_commits →
      f.iter_ids.getD i none = f.id_at i ∧
      f.id_at i = some (f.idAtRaw i)) ∧
    (∀ i, i < f.num_commits → f.iter_commits.getD i none = f.commit_at i) ∧
    (∀ i j, i < j → j < f.num_commits →
      ∃ a b, f.iter_ids.getD i none = some a ∧
        f.iter_ids.getD j none = some b ∧ cmpBytes a b = Ordering.lt) := by
  obtain ⟨hb, hsort, -⟩ := hw
  refine ⟨?_, ?_, ?_, ?_, ?_⟩
  · simp [GraphFile.iter_ids]
  · simp [GraphFile.iter_commits]
  · intro i hi
    exact ⟨getD_map_range _ _ _ _ hi, id_at_eq_some hb hi⟩
  · intro i hi
    exact getD_map_range _ _ _ _ hi
  · intro i j hij hj
    have hi : i < f.num_commits := lt_trans hij hj
    refine ⟨f.idAtRaw i, f.idAtRaw j, ?_, ?_, hsort j hj i hij⟩
    · simp only [GraphFile.iter_ids]
      rw [getD_map_range _ _ _ _ hi]
      exact id_at_eq_some hb hi
    · simp only [GraphFile.iter_ids]
      rw [getD_map_range _ _ _ _ hj]
      exact id_at_eq_some hb hj

/-- Witness for C8 at the concrete one-commit file. -/
theorem iter_sequences_spec_witness :
    exFile.WF ∧ exFile.iter_ids.length = exFile.num_commits :=
  ⟨by decide, (iter_sequences_spec exFile (by decide)).1⟩

/-- Claim C9: with no BASE chunk, `iter_base_graph_ids()` is the empty
sequence (not a failure); with a BASE chunk at offset `v` fitting the
buffer, it yields exactly `base_graph_count` ids, the `i`-th being the
hash-size slice at `v + SHA1_SIZE * i`. -/
theorem iter_base_graph_ids_spec (f : GraphFile) :
    (f.base_graphs_list_offset = none → f.iter_base_graph_ids = []) ∧
    (∀ v, f.base_graphs_list_offset = some v →
      v + SHA1_SIZE * f.base_graph_count ≤ f.data.length →
      f.iter_base_graph_ids.length = f.base_graph_count ∧
      ∀ i, i < f.base_graph_count →
        f.iter_base_graph_ids.getD i [] =
          (f.data.drop (v + SHA1_SIZE * i)).take SHA1_SIZE) := by
  constructor
  · intro h
    simp only [GraphFile.iter_base_graph_ids, h]
    exact chunksExact_nil SHA1_SIZE
  · intro v hv hlen
    have hpos : 0 < SHA1_SIZE := by norm_num [SHA1_SIZE]
    have hbase :
        ((f.data.drop v).take (SHA1_SIZE * f.base_graph_count)).length =
          SHA1_SIZE * f.base_graph_count := by
      simp only [List.length_take, List.length_drop]
      simp only [SHA1_SIZE] at *
      omega
    constructor
    · simp only [GraphFile.iter_base_graph_ids, hv]
      rw [chunksExact_length SHA1_SIZE hpos, hbase,
        Nat.mul_div_cancel_left _ hpos]
    · intro i hi
      have hidx :
          i < ((f.data.drop v).take
            (SHA1_SIZE * f.base_graph_count)).length / SHA1_SIZE := by
        rw [hbase, Nat.mul_div_cancel_left _ hpos]
        exact hi
      simp only [GraphFile.iter_base_graph_ids, hv]
      rw [chunksExact_getD SHA1_SIZE hpos _ i hidx, List.drop_take,
        List.take_take]
      have hmin : min SHA1_SIZE
          (SHA1_SIZE * f.base_graph_count - SHA1_SIZE * i) = SHA1_SIZE := by
        apply Nat.min_eq_left
        simp only [SHA1_SIZE] at *
        omega
      rw [hmin, List.drop_drop]

/-- Witness for C9: `exFile` has no BASE chunk, `exFileB` has one entry. -/
theorem iter_base_graph_ids_spec_witness :
    exFile.iter_base_graph_ids = [] ∧
    exFileB.iter_base_graph_ids.length = exFileB.base_graph_count :=
  ⟨(iter_base_graph_ids_spec exFile).1 rfl,
    ((iter_base_graph_ids_spec exFileB).2 0 rfl (by decide)).1⟩

/-- Claim C10: `hash_kind()` is constantly `Sha1`, `kind()` is constantly
`V1`, and every id produced by `id_at` is exactly `SHA1_SIZE` (20) bytes —
only the legacy 20-byte hash is supported. -/
theorem sha1_only_support (f : GraphFile) :
    f.hash_kind = HashKind.Sha1 ∧ f.kind = Kind.V1 ∧
    ∀ pos id, f.id_at pos = some id → id.length = SHA1_SIZE := by
  refine ⟨rfl, rfl, ?_⟩
  intro pos id h
  simp only [GraphFile.id_at] at h
  by_cases h1 : pos < f.num_commits
  · rw [if_pos h1] at h
    by_cases h2 : f.oid_lookup_offset + pos * SHA1_SIZE + SHA1_SIZE ≤
        f.data.length
    · rw [if_pos h2] at h
      have hid : id = f.idAtRaw pos := by
        injection h with h'
        exact h'.symm
      subst hid
      simp only [GraphFile.idAtRaw, List.length_take, List.length_drop]
      simp only [SHA1_SIZE] at *
      omega
    · rw [if_neg h2] at h
      cases h
  · rw [if_neg h1] at h
    cases h

/-- Witness for C10 at the concrete one-commit file. -/
theorem sha1_only_support_witness :
    exFile.id_at 0 = some (exFile.idAtRaw 0) ∧
    (exFile.idAtRaw 0).length = SHA1_SIZE :=
  ⟨by decide, (sha1_only_support exFile).2.2 0 (exFile.idAtRaw 0) (by decide)⟩
